import Mathlib

/-!
# todo-go: the in-memory todo handler

A shallow embedding of `handler/todo.go` (with `types/todo.go` and the error
values of `handler/error.go`) and the properties of its five request handlers.

Modelling decisions:

* `Handler` is the Go struct without its mutex: handlers are modelled as
  sequential state transformers `Handler → Context → Handler × result`.  The
  use of the mutex is modelled apart, by the steps (`Lock`, `Unlock`, reads and
  writes of the shared fields) each handler makes and their interleavings.
* `map[int]*types.Todo` is a `Finmap` from `Int` to `Todo`: a finite map with
  no enumeration order, compared by its contents.  The pointers stored in the
  map are never written through, so records are stored by value.
* Go's `int` is modelled as `Int`.  `strconv.Atoi` rejects what does not fit 64
  bits; the counter `lastID` is not reduced modulo `2^64`, it would take `2^63`
  successful creations to overflow it.
* `echo.Context` is reduced to what the handlers read from it: the path
  parameter `id` and the outcome of `c.Bind` on the request.
-/

namespace TodoGo

/-! ## types/todo.go -/

/-- The Go struct `types.Todo`. -/
structure Todo where
  ID : Int
  Name : String
  Completed : Bool
  deriving DecidableEq, Repr

/-- The zero value of `types.Todo`, what `var todo types.Todo` declares. -/
def Todo.zero : Todo := ⟨0, "", false⟩

/-! ## handler/error.go -/

/-- The Go struct `HTTPError`: a status code and a message. -/
structure HTTPError where
  code : Int
  msg : String
  deriving DecidableEq, Repr

/-- The method `(*HTTPError).Error`. -/
def HTTPError.Error (e : HTTPError) : String := e.msg

/-- The constructor `newHTTPError`. -/
def newHTTPError (code : Int) (msg : String) : HTTPError := ⟨code, msg⟩

/-- `http.StatusBadRequest`. -/
def StatusBadRequest : Int := 400
/-- `http.StatusNotFound`. -/
def StatusNotFound : Int := 404
/-- `http.StatusOK`. -/
def StatusOK : Int := 200
/-- `http.StatusCreated`. -/
def StatusCreated : Int := 201
/-- `http.StatusNoContent`. -/
def StatusNoContent : Int := 204

/-- The package variable `errBadRequest`. -/
def errBadRequest : HTTPError := newHTTPError StatusBadRequest "bad request"

/-- The package variable `errRecordNotFound`. -/
def errRecordNotFound : HTTPError := newHTTPError StatusNotFound "record not found"

/-! ## The request as the handlers see it -/

/-- A decoded JSON request body of the Todo shape: each field is present or
absent (unknown fields are ignored by the decoder and are not represented). -/
structure Payload where
  id : Option Int
  name : Option String
  completed : Option Bool
  deriving DecidableEq, Repr

/-- Decoding a payload into a Go variable that holds `t`: a field that is
present overwrites, a field that is absent leaves the variable as it was. -/
def Payload.decodeInto (p : Payload) (t : Todo) : Todo :=
  { ID := p.id.getD t.ID, Name := p.name.getD t.Name, Completed := p.completed.getD t.Completed }

/-- What a handler reads from `echo.Context`: `c.Param("id")` and the request
body, `none` when `c.Bind` cannot decode it. -/
structure Context where
  paramID : String
  body : Option Payload
  deriving DecidableEq, Repr

/-- The call `c.Bind(&todo)` on a freshly declared `todo`: an error, or the
zero value overwritten by the fields of the body. The binder is the web
framework's; it is taken to decode the JSON body and to read nothing else of
the request. -/
def Context.Bind (c : Context) : Option Todo :=
  c.body.map (fun p => p.decodeInto Todo.zero)

/-! ## strconv.Atoi -/

/-- The value of a non-empty string of ASCII digits, `none` for anything else. -/
def digitsValue : List Char → Option Nat
  | [] => none
  | cs => cs.foldl
      (fun acc ch => acc.bind (fun n => if ch.isDigit then some (10 * n + (ch.toNat - 48)) else none))
      (some 0)

/-- Go's `strconv.Atoi` on a 64-bit platform: an optional sign, then at least
one decimal digit and nothing else; a value outside the range of `int` is an
error. -/
def Atoi (s : String) : Option Int :=
  let signed : Bool × List Char :=
    match s.toList with
    | '-' :: rest => (true, rest)
    | '+' :: rest => (false, rest)
    | cs => (false, cs)
  match digitsValue signed.2 with
  | none => none
  | some n =>
    let v : Int := if signed.1 then -(n : Int) else (n : Int)
    if -((2 : Int) ^ 63) ≤ v ∧ v < (2 : Int) ^ 63 then some v else none

/-! ## handler/todo.go -/

/-- The Go struct `Handler` (its mutex left out). -/
structure Handler where
  lastID : Int
  todos : Finmap (fun _ : Int => Todo)
  deriving DecidableEq

/-- The constructor `NewHandler`: an empty map, `lastID` at its zero value. -/
def NewHandler : Handler := { lastID := 0, todos := ∅ }

/-- The payload of a response written by a handler. -/
inductive Body where
  | todo (t : Todo)
  | todos (ts : Multiset Todo)
  | empty
  deriving DecidableEq

/-- A response written with `c.JSON` or `c.NoContent`. -/
structure Response where
  status : Int
  body : Body
  deriving DecidableEq

/-- What a handler returns: the error handed to the error handler, or the
response it wrote. -/
abbrev Result := Except HTTPError Response

instance instDecidableEqExcept {ε α : Type} [DecidableEq ε] [DecidableEq α] :
    DecidableEq (Except ε α)
  | .ok a, .ok b => decidable_of_iff (a = b) (by simp)
  | .error a, .error b => decidable_of_iff (a = b) (by simp)
  | .ok _, .error _ => isFalse (by simp)
  | .error _, .ok _ => isFalse (by simp)

/-- The function `getTodoID`. -/
def getTodoID (c : Context) : Except HTTPError Int :=
  match Atoi c.paramID with
  | none => .error errRecordNotFound
  | some id => .ok id

/-- The method `Handler.CreateTodo`. -/
def CreateTodo (h : Handler) (c : Context) : Handler × Result :=
  match c.Bind with
  | none => (h, .error errBadRequest)
  | some todo =>
    if todo.Name = "" then (h, .error errBadRequest)
    else
      let lastID := h.lastID + 1
      let todo := { todo with ID := lastID }
      ({ lastID := lastID, todos := h.todos.insert todo.ID todo },
        .ok ⟨StatusCreated, .todo todo⟩)

/-- The method `Handler.UpdateTodo`. -/
def UpdateTodo (h : Handler) (c : Context) : Handler × Result :=
  match getTodoID c with
  | .error err => (h, .error err)
  | .ok id =>
    match h.todos.lookup id with
    | none => (h, .error errRecordNotFound)
    | some _ =>
      match c.Bind with
      | none => (h, .error errBadRequest)
      | some newTodo =>
        ({ h with todos := h.todos.insert id newTodo }, .ok ⟨StatusOK, .todo newTodo⟩)

/-- The method `Handler.FindTodos`: the stored records, in no particular order. -/
def FindTodos (h : Handler) (_c : Context) : Result :=
  .ok ⟨StatusOK, .todos (h.todos.entries.map Sigma.snd)⟩

/-- The method `Handler.GetTodo`. -/
def GetTodo (h : Handler) (c : Context) : Result :=
  match getTodoID c with
  | .error err => .error err
  | .ok id =>
    match h.todos.lookup id with
    | none => .error errRecordNotFound
    | some todo => .ok ⟨StatusOK, .todo todo⟩

/-- The method `Handler.DeleteTodo`. -/
def DeleteTodo (h : Handler) (c : Context) : Handler × Result :=
  match getTodoID c with
  | .error err => (h, .error err)
  | .ok id => ({ h with todos := h.todos.erase id }, .ok ⟨StatusNoContent, .empty⟩)

/-! ## cmd/server/main.go: the routes, and runs of requests -/

/-- A request to one of the five routes registered in `main`. -/
inductive Request where
  | find (c : Context)
  | create (c : Context)
  | get (c : Context)
  | update (c : Context)
  | delete (c : Context)
  deriving DecidableEq

/-- Dispatch of a request to its handler: the new state and what the handler
returned. `FindTodos` and `GetTodo` have no access to change the state. -/
def serve (h : Handler) : Request → Handler × Result
  | .find c => (h, FindTodos h c)
  | .create c => CreateTodo h c
  | .get c => (h, GetTodo h c)
  | .update c => UpdateTodo h c
  | .delete c => DeleteTodo h c

/-- One served request: the state it met, the request, what was returned. -/
structure Event where
  before : Handler
  req : Request
  res : Result

/-- The events of serving the requests `rs` one after the other from state `h`. -/
def run (h : Handler) : List Request → List Event
  | [] => []
  | r :: rs => ⟨h, r, (serve h r).2⟩ :: run (serve h r).1 rs

/-- The state after serving the requests `rs` one after the other from state `h`. -/
def stateAfter (h : Handler) : List Request → Handler
  | [] => h
  | r :: rs => stateAfter (serve h r).1 rs

/-- The id in the record returned by a successful `CreateTodo`. -/
def Event.createdID (e : Event) : Option Int :=
  match e.req, e.res with
  | .create _, .ok ⟨_, .todo t⟩ => some t.ID
  | _, _ => none

/-- The ids returned by the successful creations of a run, in order. -/
def createdIDs (h : Handler) (rs : List Request) : List Int :=
  (run h rs).filterMap Event.createdID

/-- Whether the event is a `DeleteTodo` that was answered without error. -/
def Event.isDelete (e : Event) : Bool :=
  match e.req, e.res with
  | .delete _, .ok _ => true
  | _, _ => false

/-- Whether the event is a `DeleteTodo` of an id that was stored when it was served. -/
def Event.removes (e : Event) : Bool :=
  match e.req with
  | .delete c =>
    match getTodoID c with
    | .ok id => decide (id ∈ e.before.todos)
    | .error _ => false
  | _ => false

/-- The record an event writes under id `i`, if it writes one: a successful
`CreateTodo` writes the record it returns under that record's id, a successful
`UpdateTodo` writes the record it returns under the id of its path. -/
def Event.writes (e : Event) (i : Int) : Option Todo :=
  match e.req, e.res with
  | .create _, .ok ⟨_, .todo t⟩ => if t.ID = i then some t else none
  | .update c, .ok ⟨_, .todo t⟩ =>
    match getTodoID c with
    | .ok id => if id = i then some t else none
    | .error _ => none
  | _, _ => none

/-- The record most recently written under id `i` in a list of events (oldest
first): by the last successful update of `i`, or by its creation. -/
def lastWritten : List Event → Int → Option Todo
  | [], _ => none
  | e :: es, i =>
    match lastWritten es i with
    | some t => some t
    | none => e.writes i

/-- The number of successful creations in a run. -/
def numCreated (h : Handler) (rs : List Request) : Nat :=
  (createdIDs h rs).length

/-- The number of `DeleteTodo` requests of a run that were answered without error. -/
def numDeletes (h : Handler) (rs : List Request) : Nat :=
  (run h rs).countP Event.isDelete

/-- The number of `DeleteTodo` requests of a run whose id was stored when
they were served. -/
def numRemoved (h : Handler) (rs : List Request) : Nat :=
  (run h rs).countP Event.removes

/-! ## Sample requests -/

/-- The request `POST /todos {"name":"buy milk"}`. -/
def postBuyMilk : Context := ⟨"", some ⟨none, some "buy milk", none⟩⟩

/-- The request `POST /todos {"name":""}`. -/
def postEmptyName : Context := ⟨"", some ⟨none, some "", none⟩⟩

/-- A request on `/todos/1` without a body, as `GET` and `DELETE` send it. -/
def pathOne : Context := ⟨"1", none⟩

/-- A request on `/todos/5` whose body cannot be decoded. -/
def pathFiveBadBody : Context := ⟨"5", none⟩

/-- The request `PUT /todos/1 {"id":7,"name":"buy milk","completed":true}`. -/
def putOneWithID : Context := ⟨"1", some ⟨some 7, some "buy milk", some true⟩⟩

/-- The request `PUT /todos/1 {"name":""}`. -/
def putOneEmptyName : Context := ⟨"1", some ⟨none, some "", none⟩⟩

/-- Two creations, then the first record deleted twice. -/
def createTwoDeleteTwice : List Request :=
  [.create postBuyMilk, .create postBuyMilk, .delete pathOne, .delete pathOne]

/-- The store after `POST /todos {"name":"buy milk"}` on a fresh handler. -/
def oneTodo : Handler := (CreateTodo NewHandler postBuyMilk).1

/-- The store invariant: every key of the map lies in `1 .. lastID`. -/
def KeysInRange (h : Handler) : Prop :=
  ∀ i ∈ h.todos.keys, 1 ≤ i ∧ i ≤ h.lastID

instance instDecidableKeysInRange (h : Handler) : Decidable (KeysInRange h) := by
  unfold KeysInRange
  infer_instance

/-! ## handler/error.go: the error handler, and what goes on the wire -/

/-- `http.StatusInternalServerError`. -/
def StatusInternalServerError : Int := 500

/-- A Go `error` value as `ErrorHandler` tells them apart: a `*HTTPError`, or a
value of any other type, of which only the text of its `Error()` matters. -/
inductive GoError where
  | http (e : HTTPError)
  | other (text : String)
  deriving DecidableEq, Repr

/-- The method `Error` of the `error` interface. -/
def GoError.Error : GoError → String
  | .http e => e.Error
  | .other text => text

/-- A value handed to `c.JSON`, as `encoding/json` writes it: `null`, one Todo
object, an array of Todo objects, or the object `{"message": ...}`. -/
inductive JSONDoc where
  | null
  | todo (t : Todo)
  | array (ts : List Todo)
  | message (msg : String)
  deriving DecidableEq, Repr

/-- The function `ErrorHandler`: the status and the document it writes. -/
def ErrorHandler (err : GoError) : Int × JSONDoc :=
  let code :=
    match err with
    | .http e => e.code
    | .other _ => StatusInternalServerError
  (code, .message err.Error)

/-- A Go slice value: `nil`, or a sequence of elements, possibly none. -/
inductive Slice (α : Type) where
  | nil
  | elems (l : List α)
  deriving DecidableEq, Repr

/-- The call `make([]T, 0)`: an empty slice that is not `nil`. -/
def Slice.make0 {α : Type} : Slice α := .elems []

/-- The call `append(s, x)`. -/
def Slice.append {α : Type} : Slice α → α → Slice α
  | .nil, x => .elems [x]
  | .elems l, x => .elems (l ++ [x])

/-- How `encoding/json` writes a slice of Todo pointers: `null` for the `nil`
slice, an array otherwise. -/
def marshalTodos : Slice Todo → JSONDoc
  | .nil => .null
  | .elems l => .array l

/-- The body of `FindTodos` when `range h.todos` yields the entries in the
order `es`: the slice starts as `make([]*types.Todo, 0)`, each entry is
appended, and the slice is written with status 200. -/
def FindTodosWire (es : List (Sigma fun _ : Int => Todo)) : Int × JSONDoc :=
  (StatusOK, marshalTodos (es.foldl (fun todos e => todos.append e.2) Slice.make0))

/-- Whether `es` is an enumeration of the map of `h`: its entries, each once, in
some order. -/
def Enumerates (es : List (Sigma fun _ : Int => Todo)) (h : Handler) : Prop :=
  (es : Multiset (Sigma fun _ : Int => Todo)) = h.todos.entries

instance instDecidableEnumerates (es : List (Sigma fun _ : Int => Todo)) (h : Handler) :
    Decidable (Enumerates es h) := by
  unfold Enumerates
  infer_instance

/-- The request `GET /todos/abc`. -/
def pathAbc : Context := ⟨"abc", some ⟨none, some "x", none⟩⟩

/-- A request whose path parameter `id` is the empty string. -/
def pathEmpty : Context := ⟨"", none⟩

/-- The store after one creation and the deletion of the record created. -/
def createdThenDeleted : Handler :=
  stateAfter NewHandler [.create postBuyMilk, .delete pathOne]

/-! ## handler/todo.go: the use of the mutex -/

/-- One step of a handler on what the requests share: taking `h.m`, releasing
it, reading `h.todos` or `h.lastID`, writing one of them. -/
inductive Op where
  | lock
  | unlock
  | read
  | write
  deriving DecidableEq, Repr

/-- The method `withLockContext`: `h.m.Lock()`, the steps of `fn`, and then the
deferred `h.m.Unlock()`. -/
def withLockContext (fn : List Op) : List Op :=
  Op.lock :: (fn ++ [Op.unlock])

/-- The steps of `CreateTodo`: inside `withLockContext`, and once the body is
accepted, `h.lastID++`, the read of `h.lastID`, the write of the map. -/
def CreateTodoOps (c : Context) : List Op :=
  withLockContext
    (match c.Bind with
      | none => []
      | some todo => if todo.Name = "" then [] else [.write, .read, .write])

/-- The steps of `UpdateTodo`: inside `withLockContext`, the lookup of the id and,
when it is stored and the body decodes, the write of the map. -/
def UpdateTodoOps (h : Handler) (c : Context) : List Op :=
  withLockContext
    (match getTodoID c with
      | .error _ => []
      | .ok id =>
        .read ::
          (match h.todos.lookup id with
            | none => []
            | some _ =>
              match c.Bind with
              | none => []
              | some _ => [.write]))

/-- The steps of `FindTodos`: the `range` over the map, with no call of
`withLockContext` around it. -/
def FindTodosOps : List Op := [.read]

/-- The steps of `GetTodo`: the lookup of the id, with no call of
`withLockContext` around it. -/
def GetTodoOps (c : Context) : List Op :=
  match getTodoID c with
  | .error _ => []
  | .ok _ => [.read]

/-- The steps of `DeleteTodo`: inside `withLockContext`, the `delete` on the map. -/
def DeleteTodoOps (c : Context) : List Op :=
  withLockContext
    (match getTodoID c with
      | .error _ => []
      | .ok _ => [.write])

/-- Whether steps keep to the mutex, given whether it is held at their start:
it is taken only when not held, released only when held, and every read and
write is made with it held. -/
def keepsLock : Bool → List Op → Bool
  | _, [] => true
  | held, .lock :: ops => !held && keepsLock true ops
  | held, .unlock :: ops => held && keepsLock false ops
  | held, .read :: ops => held && keepsLock held ops
  | held, .write :: ops => held && keepsLock held ops

/-- Whether a handler with these steps holds the mutex for its full duration:
its first step takes it, its last step releases it, and all steps keep to it. -/
def locksThroughout (ops : List Op) : Bool :=
  decide (ops.head? = some Op.lock) && decide (ops.getLast? = some Op.unlock) &&
    keepsLock false ops

/-- Requests in flight: which of them holds the mutex, and the steps each has
still to make. -/
structure Shared where
  holder : Option Nat
  pending : List (List Op)
  deriving DecidableEq, Repr

/-- Request `t` makes its next step: `none` when it has none left, or when the
step is `Lock` and the mutex is held. Reads and writes wait for nothing. -/
def Shared.step (s : Shared) (t : Nat) : Option Shared :=
  match s.pending[t]? with
  | some (.lock :: rest) =>
    if s.holder = none then some ⟨some t, s.pending.set t rest⟩ else none
  | some (.unlock :: rest) => some ⟨none, s.pending.set t rest⟩
  | some (.read :: rest) => some ⟨s.holder, s.pending.set t rest⟩
  | some (.write :: rest) => some ⟨s.holder, s.pending.set t rest⟩
  | _ => none

/-- The steps of a schedule, one request after the other as the schedule names
them; `none` when a named request cannot step. -/
def Shared.exec (s : Shared) : List Nat → Option Shared
  | [] => some s
  | t :: ts =>
    match s.step t with
    | none => none
    | some s2 => s2.exec ts

/-- Whether request `t` is about to read while another request holds the mutex
and has a write still to make. -/
def Shared.readsDuringWrite (s : Shared) (t : Nat) : Bool :=
  match s.pending[t]?, s.holder with
  | some (.read :: _), some u => decide (u ≠ t) && (s.pending.getD u []).contains Op.write
  | _, _ => false

/-- Every request in flight keeps to the mutex from where it stands. -/
def Shared.Disciplined (s : Shared) : Prop :=
  ∀ t < s.pending.length, keepsLock (decide (s.holder = some t)) (s.pending.getD t []) = true

instance instDecidableDisciplined (s : Shared) : Decidable s.Disciplined := by
  unfold Shared.Disciplined
  infer_instance

/-- A `POST /todos {"name":"buy milk"}` and a `GET /todos` in flight together,
neither started. -/
def createAndFind : Shared := ⟨none, [CreateTodoOps postBuyMilk, FindTodosOps]⟩

/-- A `POST /todos {"name":"buy milk"}` and a `GET /todos/1` in flight together,
neither started. -/
def createAndGet : Shared := ⟨none, [CreateTodoOps postBuyMilk, GetTodoOps pathOne]⟩

/-! ## Basic facts about the handlers -/

theorem getTodoID_eq_ok {c : Context} {i : Int} :
    getTodoID c = .ok i ↔ Atoi c.paramID = some i := by
  unfold getTodoID
  cases Atoi c.paramID <;> simp

theorem getTodoID_error {c : Context} {e : HTTPError} (he : getTodoID c = .error e) :
    e = errRecordNotFound := by
  unfold getTodoID at he
  cases hA : Atoi c.paramID <;> simp [hA] at he
  exact he.symm

theorem CreateTodo_of_valid (h : Handler) {c : Context} {t : Todo}
    (hb : c.Bind = some t) (hn : t.Name ≠ "") :
    CreateTodo h c =
      (⟨h.lastID + 1, h.todos.insert (h.lastID + 1) { t with ID := h.lastID + 1 }⟩,
        .ok ⟨StatusCreated, .todo { t with ID := h.lastID + 1 }⟩) := by
  simp [CreateTodo, hb, hn]

theorem CreateTodo_of_empty_name (h : Handler) {c : Context} {t : Todo}
    (hb : c.Bind = some t) (hn : t.Name = "") :
    CreateTodo h c = (h, .error errBadRequest) := by
  simp [CreateTodo, hb, hn]

theorem CreateTodo_of_bind_error (h : Handler) {c : Context} (hb : c.Bind = none) :
    CreateTodo h c = (h, .error errBadRequest) := by
  simp [CreateTodo, hb]

/-- A `CreateTodo` either fails and leaves the state alone, or stores the bound
record under the next id and returns it. -/
theorem CreateTodo_cases (h : Handler) (c : Context) :
    CreateTodo h c = (h, .error errBadRequest) ∨
    ∃ t : Todo, c.Bind = some t ∧ t.Name ≠ "" ∧
      CreateTodo h c =
        (⟨h.lastID + 1, h.todos.insert (h.lastID + 1) { t with ID := h.lastID + 1 }⟩,
          .ok ⟨StatusCreated, .todo { t with ID := h.lastID + 1 }⟩) := by
  cases hb : c.Bind with
  | none => exact Or.inl (CreateTodo_of_bind_error h hb)
  | some t =>
    by_cases hn : t.Name = ""
    · exact Or.inl (CreateTodo_of_empty_name h hb hn)
    · exact Or.inr ⟨t, rfl, hn, CreateTodo_of_valid h hb hn⟩

theorem UpdateTodo_lastID (h : Handler) (c : Context) : (UpdateTodo h c).1.lastID = h.lastID := by
  unfold UpdateTodo
  split
  · rfl
  · split
    · rfl
    · split <;> rfl

theorem DeleteTodo_lastID (h : Handler) (c : Context) : (DeleteTodo h c).1.lastID = h.lastID := by
  unfold DeleteTodo
  split <;> rfl

/-- Serving one request either creates a record with id `lastID + 1` and moves
`lastID` there, or creates nothing and leaves `lastID` alone. -/
theorem serve_createdID (h : Handler) (r : Request) :
    (Event.createdID ⟨h, r, (serve h r).2⟩ = none ∧ (serve h r).1.lastID = h.lastID) ∨
    (Event.createdID ⟨h, r, (serve h r).2⟩ = some (h.lastID + 1) ∧
      (serve h r).1.lastID = h.lastID + 1) := by
  cases r with
  | find c => left; simp [Event.createdID, serve]
  | get c => left; simp [Event.createdID, serve]
  | update c => left; simp [Event.createdID, serve, UpdateTodo_lastID]
  | delete c => left; simp [Event.createdID, serve, DeleteTodo_lastID]
  | create c =>
    rcases CreateTodo_cases h c with hc | ⟨t, -, -, hc⟩
    · left; simp [Event.createdID, serve, hc]
    · right; simp [Event.createdID, serve, hc]

/-- From any state, the ids handed out by a run are `lastID + 1`, `lastID + 2`, ... -/
theorem createdIDs_eq_from (rs : List Request) (h : Handler) :
    createdIDs h rs =
      (List.range (createdIDs h rs).length).map (fun k : Nat => h.lastID + 1 + (k : Int)) := by
  induction rs generalizing h with
  | nil => simp [createdIDs, run]
  | cons r rs ih =>
    have hstep : createdIDs h (r :: rs) =
        (match Event.createdID ⟨h, r, (serve h r).2⟩ with
          | some i => i :: createdIDs (serve h r).1 rs
          | none => createdIDs (serve h r).1 rs) := by
      simp only [createdIDs, run, List.filterMap_cons]
      cases Event.createdID ⟨h, r, (serve h r).2⟩ <;> rfl
    rcases serve_createdID h r with ⟨h1, h2⟩ | ⟨h1, h2⟩
    · rw [hstep, h1]
      simp only
      have := ih (serve h r).1
      rw [h2] at this
      exact this
    · rw [hstep, h1]
      simp only
      have := ih (serve h r).1
      rw [h2] at this
      rw [List.length_cons, List.range_succ_eq_map, List.map_cons, List.map_map]
      refine congrArg₂ _ (by simp) ?_
      rw [this]
      simp only [List.length_map, List.length_range]
      apply List.map_congr_left
      intro k _
      simp only [Function.comp, Nat.cast_succ]
      ring

/-! ## C1 -/

/-- C1: on a fresh handler, for every sequence of requests, the ids returned by
the successful `CreateTodo` calls are, in order, 1, 2, 3, ...: the k-th one is
exactly k, whatever the bodies supplied. Hence each is strictly greater than
all ids assigned before it, and none is handed out twice. -/
theorem createdIDs_sequential (rs : List Request) :
    createdIDs NewHandler rs =
        (List.range (createdIDs NewHandler rs).length).map (fun k : Nat => (k : Int) + 1) ∧
      (createdIDs NewHandler rs).Pairwise (fun a b => a < b) := by
  have h := createdIDs_eq_from rs NewHandler
  have h1 : createdIDs NewHandler rs =
      (List.range (createdIDs NewHandler rs).length).map (fun k : Nat => (k : Int) + 1) := by
    conv_lhs => rw [h]
    apply List.map_congr_left
    intro k _
    simp [NewHandler, add_comm]
  refine ⟨h1, ?_⟩
  rw [h1, List.pairwise_map]
  refine (List.pairwise_lt_range _).imp ?_
  intro a b hab
  omega

/-! ## C2 -/

/-- C2: in every state, `CreateTodo` with a body whose name is empty (or
missing, which decodes to the empty string) fails with the 400 "bad request"
error and returns the state as it was, map and `lastID` alike, so that any
following `CreateTodo` behaves as if the failed call had not happened. -/
theorem CreateTodo_empty_name (h : Handler) (c : Context) (p : Payload)
    (hb : c.body = some p) (hn : p.name = some "" ∨ p.name = none) :
    CreateTodo h c = (h, .error errBadRequest) ∧
      errBadRequest.code = 400 ∧ errBadRequest.Error = "bad request" ∧
      ∀ c2 : Context, CreateTodo (CreateTodo h c).1 c2 = CreateTodo h c2 := by
  have hc : CreateTodo h c = (h, .error errBadRequest) := by
    apply CreateTodo_of_empty_name h (t := p.decodeInto Todo.zero)
    · simp [Context.Bind, hb]
    · rcases hn with hn | hn <;> simp [Payload.decodeInto, Todo.zero, hn]
  refine ⟨hc, rfl, rfl, ?_⟩
  intro c2
  rw [hc]

/-- The rejection of an empty name, on the store that holds one record. -/
theorem CreateTodo_empty_name_witness :
    postEmptyName.body = some ⟨none, some "", none⟩ ∧
      CreateTodo oneTodo postEmptyName = (oneTodo, .error errBadRequest) ∧
      errBadRequest.code = 400 ∧ errBadRequest.Error = "bad request" ∧
      ∀ c2 : Context, CreateTodo (CreateTodo oneTodo postEmptyName).1 c2 = CreateTodo oneTodo c2 :=
  ⟨rfl, CreateTodo_empty_name oneTodo postEmptyName ⟨none, some "", none⟩ rfl (Or.inl rfl)⟩

/-! ## C3 -/

/-- C3: in every state, if `CreateTodo` answers 201 with the record `t`, then in
the state it leaves `GetTodo` on a path id that parses to `t.ID` answers 200
with exactly `t`. -/
theorem GetTodo_after_CreateTodo (h : Handler) (c : Context) (t : Todo)
    (hc : (CreateTodo h c).2 = .ok ⟨StatusCreated, .todo t⟩)
    (c2 : Context) (hid : getTodoID c2 = .ok t.ID) :
    GetTodo (CreateTodo h c).1 c2 = .ok ⟨StatusOK, .todo t⟩ := by
  rcases CreateTodo_cases h c with he | ⟨t0, -, -, he⟩
  · rw [he] at hc
    simp at hc
  · rw [he] at hc ⊢
    simp only [Except.ok.injEq, Response.mk.injEq, Body.todo.injEq, true_and] at hc
    subst hc
    simp only at hid
    simp [GetTodo, hid, Finmap.lookup_insert]

/-- Creation on a fresh handler followed by `GET /todos/1`. -/
theorem GetTodo_after_CreateTodo_witness :
    (CreateTodo NewHandler postBuyMilk).2 = .ok ⟨StatusCreated, .todo ⟨1, "buy milk", false⟩⟩ ∧
      getTodoID pathOne = .ok 1 ∧
      GetTodo (CreateTodo NewHandler postBuyMilk).1 pathOne =
        .ok ⟨StatusOK, .todo ⟨1, "buy milk", false⟩⟩ :=
  ⟨by decide, by decide,
    GetTodo_after_CreateTodo NewHandler postBuyMilk ⟨1, "buy milk", false⟩ (by decide) pathOne
      (by decide)⟩

/-! ## C4 -/

/-- C4 (the code departs from it): `UpdateTodo` stores and returns the record as
decoded from the body, id included, and never sets the id from the path. With
one record stored under id 1, `PUT /todos/1 {"id":7,"name":"buy milk",
"completed":true}` answers 200 with id 7, and `GET /todos/1` then returns a
record whose id is 7. -/
theorem UpdateTodo_takes_id_from_body :
    oneTodo.todos.lookup 1 = some ⟨1, "buy milk", false⟩ ∧
      (UpdateTodo oneTodo putOneWithID).2 = .ok ⟨StatusOK, .todo ⟨7, "buy milk", true⟩⟩ ∧
      GetTodo (UpdateTodo oneTodo putOneWithID).1 pathOne =
        .ok ⟨StatusOK, .todo ⟨7, "buy milk", true⟩⟩ := by
  decide

/-! ## C5 -/

/-- C5: in every state, `UpdateTodo` on a path id that parses to a key absent
from the store fails with the 404 "record not found" error and returns the
state as it was, whatever the body is, decodable or not: the body is not looked
at, and the 400 error cannot come out. -/
theorem UpdateTodo_absent (h : Handler) (c : Context) (i : Int)
    (hid : getTodoID c = .ok i) (hi : i ∉ h.todos) :
    UpdateTodo h c = (h, .error errRecordNotFound) ∧
      errRecordNotFound.code = 404 ∧ errRecordNotFound.Error = "record not found" ∧
      (UpdateTodo h c).2 ≠ .error errBadRequest := by
  have hu : UpdateTodo h c = (h, .error errRecordNotFound) := by
    simp [UpdateTodo, hid, Finmap.lookup_eq_none.mpr hi]
  refine ⟨hu, rfl, rfl, ?_⟩
  rw [hu]
  have hne : errRecordNotFound ≠ errBadRequest := by decide
  simpa using hne

/-- An update of the absent id 5 with a body that cannot be decoded. -/
theorem UpdateTodo_absent_witness :
    getTodoID pathFiveBadBody = .ok 5 ∧ (5 : Int) ∉ oneTodo.todos ∧
      pathFiveBadBody.Bind = none ∧
      UpdateTodo oneTodo pathFiveBadBody = (oneTodo, .error errRecordNotFound) ∧
      errRecordNotFound.code = 404 ∧ errRecordNotFound.Error = "record not found" ∧
      (UpdateTodo oneTodo pathFiveBadBody).2 ≠ .error errBadRequest :=
  ⟨by decide, by decide, by decide,
    UpdateTodo_absent oneTodo pathFiveBadBody 5 (by decide) (by decide)⟩

/-! ## C6 -/

/-- C6: in every state, `UpdateTodo` on a path id `i` present in the store with
a decodable body answers 200 and leaves under `i` the record decoded from the
body alone: its name and completed are the body's, `""` and `false` where the
body omits them, and nothing of the old record enters. The name is not checked,
so an empty name succeeds as well. -/
theorem UpdateTodo_replaces (h : Handler) (c : Context) (i : Int) (p : Payload)
    (hid : getTodoID c = .ok i) (hi : i ∈ h.todos) (hb : c.body = some p) :
    ∃ t : Todo,
      UpdateTodo h c = (⟨h.lastID, h.todos.insert i t⟩, .ok ⟨StatusOK, .todo t⟩) ∧
      (UpdateTodo h c).1.todos.lookup i = some t ∧
      t.Name = p.name.getD "" ∧ t.Completed = p.completed.getD false := by
  obtain ⟨old, hold⟩ := Finmap.mem_iff.mp hi
  have hu : UpdateTodo h c =
      (⟨h.lastID, h.todos.insert i (p.decodeInto Todo.zero)⟩,
        .ok ⟨StatusOK, .todo (p.decodeInto Todo.zero)⟩) := by
    simp [UpdateTodo, hid, hold, Context.Bind, hb]
  refine ⟨p.decodeInto Todo.zero, hu, ?_, rfl, rfl⟩
  rw [hu]
  exact Finmap.lookup_insert _

/-- An update of the stored id 1 with an empty name and no completed field. -/
theorem UpdateTodo_replaces_witness :
    getTodoID putOneEmptyName = .ok 1 ∧ (1 : Int) ∈ oneTodo.todos ∧
      oneTodo.todos.lookup 1 = some ⟨1, "buy milk", false⟩ ∧
      ∃ t : Todo,
        UpdateTodo oneTodo putOneEmptyName =
          (⟨oneTodo.lastID, oneTodo.todos.insert 1 t⟩, .ok ⟨StatusOK, .todo t⟩) ∧
        (UpdateTodo oneTodo putOneEmptyName).1.todos.lookup 1 = some t ∧
        t.Name = (some "").getD "" ∧ t.Completed = (none : Option Bool).getD false :=
  ⟨by decide, by decide, by decide,
    UpdateTodo_replaces oneTodo putOneEmptyName 1 ⟨none, some "", none⟩ (by decide) (by decide)
      rfl⟩

/-! ## C7 -/

theorem erase_of_not_mem {i : Int} {m : Finmap (fun _ : Int => Todo)} (hi : i ∉ m) :
    m.erase i = m := by
  apply Finmap.ext_lookup
  intro x
  by_cases hx : x = i
  · subst hx
    rw [Finmap.lookup_erase, Finmap.lookup_eq_none.mpr hi]
  · exact Finmap.lookup_erase_ne hx

/-- C7: in every state, `DeleteTodo` on a path id that parses to `i` answers 204
with an empty body whether or not `i` is stored; the state it leaves has no
entry for `i`, so `GetTodo` on `i` is the 404 error there; when `i` was not
stored the state is returned as it was; and a second `DeleteTodo` of `i` gives
the same answer and the same state as the first. -/
theorem DeleteTodo_idempotent (h : Handler) (c : Context) (i : Int)
    (hid : getTodoID c = .ok i) :
    (DeleteTodo h c).2 = .ok ⟨StatusNoContent, .empty⟩ ∧ StatusNoContent = 204 ∧
      i ∉ (DeleteTodo h c).1.todos ∧
      (∀ c2 : Context, getTodoID c2 = .ok i →
        GetTodo (DeleteTodo h c).1 c2 = .error errRecordNotFound) ∧
      errRecordNotFound.code = 404 ∧
      (i ∉ h.todos → (DeleteTodo h c).1 = h) ∧
      DeleteTodo (DeleteTodo h c).1 c = DeleteTodo h c := by
  have hd : ∀ g : Handler, DeleteTodo g c =
      ({ g with todos := g.todos.erase i }, .ok ⟨StatusNoContent, .empty⟩) := by
    intro g
    simp [DeleteTodo, hid]
  refine ⟨by rw [hd], rfl, ?_, ?_, rfl, ?_, ?_⟩
  · rw [hd]
    exact Finmap.not_mem_erase_self
  · intro c2 hc2
    simp [GetTodo, hc2, hd, Finmap.lookup_erase]
  · intro hi
    rw [hd]
    cases h with
    | mk l m => simp only [Handler.mk.injEq, true_and]; exact erase_of_not_mem hi
  · rw [hd (DeleteTodo h c).1, hd h]
    simp only [Prod.mk.injEq, Handler.mk.injEq, true_and, and_true]
    exact erase_of_not_mem Finmap.not_mem_erase_self

/-- Deletion of the stored id 1, once and twice. -/
theorem DeleteTodo_idempotent_witness :
    getTodoID pathOne = .ok 1 ∧ (1 : Int) ∈ oneTodo.todos ∧
      (DeleteTodo oneTodo pathOne).2 = .ok ⟨StatusNoContent, .empty⟩ ∧ StatusNoContent = 204 ∧
      (1 : Int) ∉ (DeleteTodo oneTodo pathOne).1.todos ∧
      (∀ c2 : Context, getTodoID c2 = .ok 1 →
        GetTodo (DeleteTodo oneTodo pathOne).1 c2 = .error errRecordNotFound) ∧
      errRecordNotFound.code = 404 ∧
      ((1 : Int) ∉ oneTodo.todos → (DeleteTodo oneTodo pathOne).1 = oneTodo) ∧
      DeleteTodo (DeleteTodo oneTodo pathOne).1 pathOne = DeleteTodo oneTodo pathOne :=
  ⟨by decide, by decide, DeleteTodo_idempotent oneTodo pathOne 1 (by decide)⟩

/-! ## The store invariant, for C9 and C10 -/

theorem keysInRange_iff (h : Handler) :
    KeysInRange h ↔ ∀ i : Int, i ∈ h.todos → 1 ≤ i ∧ i ≤ h.lastID := by
  simp [KeysInRange, Finmap.mem_keys]

theorem KeysInRange_NewHandler : KeysInRange NewHandler := by
  decide

/-- Preservation by `CreateTodo`, when the counter is not negative: the new key
is `lastID + 1`, which is at least 1 and is the new counter. -/
theorem KeysInRange_CreateTodo (h : Handler) (c : Context) (h0 : 0 ≤ h.lastID)
    (hk : KeysInRange h) : KeysInRange (CreateTodo h c).1 := by
  rcases CreateTodo_cases h c with he | ⟨t, -, -, he⟩
  · rw [he]; exact hk
  · rw [he, keysInRange_iff]
    rw [keysInRange_iff] at hk
    intro i hi
    rcases Finmap.mem_insert.mp hi with rfl | hi
    · simp only
      omega
    · have := hk i hi
      simp only
      omega

theorem UpdateTodo_mem (h : Handler) (c : Context) (i : Int) :
    i ∈ (UpdateTodo h c).1.todos ↔ i ∈ h.todos := by
  unfold UpdateTodo
  split
  · rfl
  · rename_i id _
    split
    · rfl
    · rename_i old hold
      split
      · rfl
      · simp only [Finmap.mem_insert]
        constructor
        · rintro (rfl | hi)
          · exact Finmap.mem_of_lookup_eq_some hold
          · exact hi
        · exact Or.inr

theorem DeleteTodo_mem (h : Handler) (c : Context) (i : Int) :
    i ∈ (DeleteTodo h c).1.todos → i ∈ h.todos := by
  unfold DeleteTodo
  split
  · exact id
  · intro hi
    exact (Finmap.mem_erase.mp hi).2

theorem KeysInRange_serve (h : Handler) (r : Request) (h0 : 0 ≤ h.lastID)
    (hk : KeysInRange h) : KeysInRange (serve h r).1 := by
  cases r with
  | find c => exact hk
  | get c => exact hk
  | create c => exact KeysInRange_CreateTodo h c h0 hk
  | update c =>
    rw [keysInRange_iff] at hk ⊢
    intro i hi
    simp only [serve, UpdateTodo_lastID]
    exact hk i ((UpdateTodo_mem h c i).mp hi)
  | delete c =>
    rw [keysInRange_iff] at hk ⊢
    intro i hi
    simp only [serve, DeleteTodo_lastID]
    exact hk i (DeleteTodo_mem h c i hi)

theorem lastID_le_serve (h : Handler) (r : Request) : h.lastID ≤ (serve h r).1.lastID := by
  rcases serve_createdID h r with ⟨-, h2⟩ | ⟨-, h2⟩ <;> omega

theorem stateAfter_invariant (rs : List Request) (h : Handler) (h0 : 0 ≤ h.lastID)
    (hk : KeysInRange h) :
    0 ≤ (stateAfter h rs).lastID ∧ KeysInRange (stateAfter h rs) := by
  induction rs generalizing h with
  | nil => exact ⟨h0, hk⟩
  | cons r rs ih =>
    exact ih (serve h r).1 (le_trans h0 (lastID_le_serve h r)) (KeysInRange_serve h r h0 hk)

/-! ## C9 -/

/-- C9: in every state reached from `NewHandler` by a sequence of requests,
every key of the map lies in `1 .. lastID`, the counter is not negative, and
the map is empty when the counter is 0; and every handler, applied to a state
with a non-negative counter in which the keys lie in `1 .. lastID`, returns a
state in which they do. -/
theorem keysInRange_reachable :
    (∀ rs : List Request,
        (∀ i : Int, i ∈ (stateAfter NewHandler rs).todos →
          1 ≤ i ∧ i ≤ (stateAfter NewHandler rs).lastID) ∧
        0 ≤ (stateAfter NewHandler rs).lastID ∧
        ((stateAfter NewHandler rs).lastID = 0 → (stateAfter NewHandler rs).todos = ∅)) ∧
      (∀ (h : Handler) (c : Context), 0 ≤ h.lastID → KeysInRange h →
        KeysInRange (CreateTodo h c).1 ∧ KeysInRange (UpdateTodo h c).1 ∧
        KeysInRange (DeleteTodo h c).1 ∧ KeysInRange (serve h (.get c)).1 ∧
        KeysInRange (serve h (.find c)).1) := by
  constructor
  · intro rs
    have hinv := stateAfter_invariant rs NewHandler (le_refl _) KeysInRange_NewHandler
    have hk := (keysInRange_iff _).mp hinv.2
    refine ⟨hk, hinv.1, ?_⟩
    intro hz
    apply Finmap.ext_lookup
    intro x
    rw [Finmap.lookup_empty, Finmap.lookup_eq_none]
    intro hx
    have := hk x hx
    omega
  · intro h c h0 hk
    exact ⟨KeysInRange_serve h (.create c) h0 hk, KeysInRange_serve h (.update c) h0 hk,
      KeysInRange_serve h (.delete c) h0 hk, KeysInRange_serve h (.get c) h0 hk,
      KeysInRange_serve h (.find c) h0 hk⟩

/-! ## C10 -/

/-- C10: in every state reached from `NewHandler`, `GetTodo` on a path id that
parses to an id never assigned, one that is at most 0 or greater than `lastID`,
fails with the 404 error whose message is "record not found". -/
theorem GetTodo_never_assigned (rs : List Request) (c : Context) (i : Int)
    (hid : getTodoID c = .ok i) (hi : i ≤ 0 ∨ (stateAfter NewHandler rs).lastID < i) :
    GetTodo (stateAfter NewHandler rs) c = .error errRecordNotFound ∧
      errRecordNotFound.code = 404 ∧ errRecordNotFound.Error = "record not found" := by
  have hinv := stateAfter_invariant rs NewHandler (le_refl _) KeysInRange_NewHandler
  have hk := (keysInRange_iff _).mp hinv.2
  have hnot : i ∉ (stateAfter NewHandler rs).todos := by
    intro hmem
    have := hk i hmem
    omega
  refine ⟨?_, rfl, rfl⟩
  simp [GetTodo, hid, Finmap.lookup_eq_none.mpr hnot]

/-- After one creation and its deletion, `GET /todos/5` is the 404 error. -/
theorem GetTodo_never_assigned_witness :
    getTodoID pathFiveBadBody = .ok 5 ∧
      (stateAfter NewHandler [.create postBuyMilk, .delete pathOne]).lastID < 5 ∧
      GetTodo (stateAfter NewHandler [.create postBuyMilk, .delete pathOne]) pathFiveBadBody =
        .error errRecordNotFound ∧
      errRecordNotFound.code = 404 ∧ errRecordNotFound.Error = "record not found" :=
  ⟨by decide, by decide,
    GetTodo_never_assigned [.create postBuyMilk, .delete pathOne] pathFiveBadBody 5 (by decide)
      (Or.inr (by decide))⟩

/-! ## Enumeration and counting, for C8 -/

/-- Enumerating a map yields, for each key, the record stored under it. -/
theorem entries_eq_keys_lookup (m : Finmap (fun _ : Int => Todo)) :
    (m.entries.map Sigma.snd).map some = m.keys.val.map (fun i => m.lookup i) := by
  refine Finmap.induction_on m ?_
  intro a
  rw [Finmap.keys_val, AList.toFinmap_entries]
  simp only [Finmap.lookup_toFinmap, Multiset.map_coe, AList.keys, List.keys, List.map_map]
  congr 1
  apply List.map_congr_left
  intro e he
  have hmem : e.2 ∈ a.lookup e.1 := AList.mem_lookup_iff.mpr he
  simpa [Function.comp] using (Option.mem_def.mp hmem).symm

theorem card_entries (m : Finmap (fun _ : Int => Todo)) :
    Multiset.card (m.entries.map Sigma.snd) = m.keys.card := by
  have h := congrArg Multiset.card (entries_eq_keys_lookup m)
  simpa using h

theorem keys_insert (i : Int) (t : Todo) (m : Finmap (fun _ : Int => Todo)) :
    (m.insert i t).keys = insert i m.keys := by
  ext x
  simp [Finmap.mem_keys, Finmap.mem_insert]

/-- The effect of one request on the number of stored records. -/
theorem card_serve (h : Handler) (r : Request) (hk : KeysInRange h) :
    (serve h r).1.todos.keys.card + (if Event.removes ⟨h, r, (serve h r).2⟩ then 1 else 0) =
      h.todos.keys.card + (if (Event.createdID ⟨h, r, (serve h r).2⟩).isSome then 1 else 0) := by
  cases r with
  | find c => simp [serve, Event.removes, Event.createdID]
  | get c => simp [serve, Event.removes, Event.createdID]
  | create c =>
    rcases CreateTodo_cases h c with he | ⟨t, -, -, he⟩
    · simp [serve, Event.removes, Event.createdID, he]
    · have hfresh : h.lastID + 1 ∉ h.todos.keys := by
        intro hmem
        have := hk _ hmem
        omega
      simp [serve, Event.removes, Event.createdID, he, keys_insert,
        Finset.card_insert_of_not_mem hfresh]
  | update c =>
    have hkeys : (UpdateTodo h c).1.todos.keys = h.todos.keys := by
      ext x
      simp [Finmap.mem_keys, UpdateTodo_mem]
    simp [serve, Event.removes, Event.createdID, hkeys]
  | delete c =>
    cases hid : getTodoID c with
    | error e => simp [serve, Event.removes, Event.createdID, DeleteTodo, hid]
    | ok i =>
      by_cases hi : i ∈ h.todos
      · have hi2 : i ∈ h.todos.keys := Finmap.mem_keys.mpr hi
        have hpos : 0 < h.todos.keys.card := Finset.card_pos.mpr ⟨i, hi2⟩
        simp [serve, Event.removes, Event.createdID, DeleteTodo, hid, hi, Finmap.keys_erase,
          Finset.card_erase_of_mem hi2]
        omega
      · simp [serve, Event.removes, Event.createdID, DeleteTodo, hid, hi, erase_of_not_mem hi]

theorem numCreated_cons (h : Handler) (r : Request) (rs : List Request) :
    numCreated h (r :: rs) =
      (if (Event.createdID ⟨h, r, (serve h r).2⟩).isSome then 1 else 0) +
        numCreated (serve h r).1 rs := by
  simp only [numCreated, createdIDs, run, List.filterMap_cons]
  cases Event.createdID ⟨h, r, (serve h r).2⟩ <;> simp [Nat.add_comm]

theorem numRemoved_cons (h : Handler) (r : Request) (rs : List Request) :
    numRemoved h (r :: rs) =
      (if Event.removes ⟨h, r, (serve h r).2⟩ then 1 else 0) + numRemoved (serve h r).1 rs := by
  simp only [numRemoved, run, List.countP_cons]
  rw [Nat.add_comm]

/-- Records are neither lost nor made up: along a run, each successful creation
adds one record and each deletion of a stored id takes one away. -/
theorem card_stateAfter (rs : List Request) (h : Handler) (h0 : 0 ≤ h.lastID)
    (hk : KeysInRange h) :
    (stateAfter h rs).todos.keys.card + numRemoved h rs =
      h.todos.keys.card + numCreated h rs := by
  induction rs generalizing h with
  | nil => simp [stateAfter, numRemoved, numCreated, createdIDs, run]
  | cons r rs ih =>
    have hstep := card_serve h r hk
    have hrest := ih (serve h r).1 (le_trans h0 (lastID_le_serve h r))
      (KeysInRange_serve h r h0 hk)
    rw [numCreated_cons, numRemoved_cons]
    simp only [stateAfter]
    omega

/-- The record found under `i` after one request: the one the request wrote
there, or else the one that was there before, unless the request removed it. -/
theorem lookup_serve (h : Handler) (r : Request) (i : Int) :
    (serve h r).1.todos.lookup i = none ∨
    (serve h r).1.todos.lookup i =
      (match Event.writes ⟨h, r, (serve h r).2⟩ i with
        | some t => some t
        | none => h.todos.lookup i) := by
  cases r with
  | find c => right; simp [serve, Event.writes, FindTodos]
  | get c => right; simp [serve, Event.writes]
  | create c =>
    right
    rcases CreateTodo_cases h c with he | ⟨t, -, -, he⟩
    · simp [serve, Event.writes, he]
    · simp only [serve, Event.writes, he]
      by_cases hi : h.lastID + 1 = i
      · subst hi
        simp [Finmap.lookup_insert]
      · simp [hi, Finmap.lookup_insert_of_ne _ (Ne.symm hi)]
  | update c =>
    right
    simp only [serve, Event.writes, UpdateTodo]
    cases hid : getTodoID c with
    | error e => simp
    | ok id =>
      simp only
      cases hl : h.todos.lookup id with
      | none => simp
      | some old =>
        simp only
        cases hb : c.Bind with
        | none => simp
        | some newTodo =>
          by_cases hi : id = i
          · subst hi
            simp [hid, Finmap.lookup_insert]
          · simp [hid, hi, Finmap.lookup_insert_of_ne _ (Ne.symm hi)]
  | delete c =>
    simp only [serve, Event.writes, DeleteTodo]
    cases hid : getTodoID c with
    | error e => right; simp
    | ok id =>
      by_cases hi : i = id
      · left
        subst hi
        simp [Finmap.lookup_erase]
      · right
        simp [Finmap.lookup_erase_ne hi]

/-- After a run, each stored record is the one last written under its id during
the run, or the one the run started with if none was written. -/
theorem lookup_stateAfter (rs : List Request) (h : Handler) (i : Int)
    (hi : i ∈ (stateAfter h rs).todos) :
    (stateAfter h rs).todos.lookup i =
      (match lastWritten (run h rs) i with
        | some t => some t
        | none => h.todos.lookup i) := by
  induction rs generalizing h with
  | nil => simp [stateAfter, run, lastWritten]
  | cons r rs ih =>
    have hrest := ih (serve h r).1 hi
    simp only [stateAfter, run, lastWritten] at hrest ⊢
    cases hw : lastWritten (run (serve h r).1 rs) i with
    | some t => rw [hw] at hrest; simpa using hrest
    | none =>
      rw [hw] at hrest
      simp only at hrest ⊢
      rcases lookup_serve h r i with hnone | hsome
      · rw [hnone] at hrest
        exact absurd hrest (by
          intro hcontra
          exact (Finmap.lookup_eq_none.mp hcontra) hi)
      · rw [hrest, hsome]

/-! ## C8 -/

/-- C8 as stated fails: after two creations and two successful `DeleteTodo`
requests, both of id 1, `FindTodos` returns one item, not 2 - 2 = 0. -/
theorem FindTodos_count_counterexample :
    numCreated NewHandler createTwoDeleteTwice = 2 ∧
      numDeletes NewHandler createTwoDeleteTwice = 2 ∧
      FindTodos (stateAfter NewHandler createTwoDeleteTwice) pathOne =
        .ok ⟨StatusOK, .todos {⟨2, "buy milk", false⟩}⟩ ∧
      ¬ (∀ ts : Multiset Todo,
          FindTodos (stateAfter NewHandler createTwoDeleteTwice) pathOne =
            .ok ⟨StatusOK, .todos ts⟩ →
          Multiset.card ts =
            numCreated NewHandler createTwoDeleteTwice -
              numDeletes NewHandler createTwoDeleteTwice) := by
  refine ⟨by decide, by decide, by decide, ?_⟩
  intro hall
  have h1 := hall {⟨2, "buy milk", false⟩} (by decide)
  revert h1
  decide

/-- C8 (amended): after any sequence of requests on a fresh handler,
`FindTodos` answers 200 with exactly N - R items, where N counts the successful
creations and R the `DeleteTodo` requests whose id was stored when they were
served (R ≤ N); there is one item per stored id, and it is the record last
written under that id, by its last successful update or else by its creation.
The items form a multiset: nothing depends on the order of enumeration. -/
theorem FindTodos_after_run (rs : List Request) (c : Context) :
    ∃ ts : Multiset Todo,
      FindTodos (stateAfter NewHandler rs) c = .ok ⟨StatusOK, .todos ts⟩ ∧
      numRemoved NewHandler rs ≤ numCreated NewHandler rs ∧
      Multiset.card ts = numCreated NewHandler rs - numRemoved NewHandler rs ∧
      ts.map some =
        (stateAfter NewHandler rs).todos.keys.val.map (lastWritten (run NewHandler rs)) := by
  refine ⟨_, rfl, ?_, ?_, ?_⟩
  · have hcard := card_stateAfter rs NewHandler (le_refl _) KeysInRange_NewHandler
    have hnew : NewHandler.todos.keys.card = 0 := by decide
    omega
  · have hcard := card_stateAfter rs NewHandler (le_refl _) KeysInRange_NewHandler
    have hnew : NewHandler.todos.keys.card = 0 := by decide
    rw [card_entries]
    omega
  · rw [entries_eq_keys_lookup]
    apply Multiset.map_congr rfl
    intro i hi
    have hmem : i ∈ (stateAfter NewHandler rs).todos := Finmap.mem_keys.mp hi
    rw [lookup_stateAfter rs NewHandler i hmem]
    cases lastWritten (run NewHandler rs) i <;> simp [NewHandler, Finmap.lookup_empty]

/-! ## C11 -/

/-- C11: for every path id that `strconv.Atoi` rejects, `getTodoID` returns
`errRecordNotFound`, and `GetTodo`, `UpdateTodo` and `DeleteTodo` each fail with
that error, 404 "record not found", in every state and for every body, and
return the state as it was: no 400, and no 204 from `DeleteTodo`. -/
theorem unparseable_id_not_found (h : Handler) (c : Context) (hp : Atoi c.paramID = none) :
    getTodoID c = .error errRecordNotFound ∧
      GetTodo h c = .error errRecordNotFound ∧
      UpdateTodo h c = (h, .error errRecordNotFound) ∧
      DeleteTodo h c = (h, .error errRecordNotFound) ∧
      errRecordNotFound.code = 404 ∧ errRecordNotFound.Error = "record not found" ∧
      (ErrorHandler (.http errRecordNotFound)).1 = 404 := by
  have hid : getTodoID c = .error errRecordNotFound := by
    simp [getTodoID, hp]
  refine ⟨hid, ?_, ?_, ?_, rfl, rfl, rfl⟩
  · simp [GetTodo, hid]
  · simp [UpdateTodo, hid]
  · simp [DeleteTodo, hid]

/-- The paths `abc` and the empty string, on the store that holds one record. -/
theorem unparseable_id_not_found_witness :
    Atoi "abc" = none ∧ Atoi "" = none ∧
      (1 : Int) ∈ oneTodo.todos ∧
      (getTodoID pathAbc = .error errRecordNotFound ∧
        GetTodo oneTodo pathAbc = .error errRecordNotFound ∧
        UpdateTodo oneTodo pathAbc = (oneTodo, .error errRecordNotFound) ∧
        DeleteTodo oneTodo pathAbc = (oneTodo, .error errRecordNotFound) ∧
        errRecordNotFound.code = 404 ∧ errRecordNotFound.Error = "record not found" ∧
        (ErrorHandler (.http errRecordNotFound)).1 = 404) ∧
      (getTodoID pathEmpty = .error errRecordNotFound ∧
        GetTodo oneTodo pathEmpty = .error errRecordNotFound ∧
        UpdateTodo oneTodo pathEmpty = (oneTodo, .error errRecordNotFound) ∧
        DeleteTodo oneTodo pathEmpty = (oneTodo, .error errRecordNotFound) ∧
        errRecordNotFound.code = 404 ∧ errRecordNotFound.Error = "record not found" ∧
        (ErrorHandler (.http errRecordNotFound)).1 = 404) :=
  ⟨by decide, by decide, by decide,
    unparseable_id_not_found oneTodo pathAbc (by decide),
    unparseable_id_not_found oneTodo pathEmpty (by decide)⟩

/-! ## C12 -/

/-- C12: for every error value, `ErrorHandler` writes the document
`{"message": err.Error()}`; the status is the error's own code when the error
is an `*HTTPError`, so 400 for `errBadRequest` and 404 for `errRecordNotFound`,
and 500 for an error of any other type. -/
theorem ErrorHandler_response (err : GoError) :
    (ErrorHandler err).2 = .message err.Error ∧
      (∀ e : HTTPError, err = .http e → (ErrorHandler err).1 = e.code) ∧
      ((∀ e : HTTPError, err ≠ .http e) → (ErrorHandler err).1 = 500) ∧
      ErrorHandler (.http errBadRequest) = (400, .message "bad request") ∧
      ErrorHandler (.http errRecordNotFound) = (404, .message "record not found") := by
  refine ⟨rfl, ?_, ?_, rfl, rfl⟩
  · rintro e rfl
    rfl
  · intro hne
    cases err with
    | http e => exact absurd rfl (hne e)
    | other text => rfl

/-- An error that is no `*HTTPError` is answered 500 with its own text. -/
theorem ErrorHandler_response_witness :
    ErrorHandler (.other "code=404, message=Not Found") =
        (500, .message "code=404, message=Not Found") ∧
      (ErrorHandler (.other "code=404, message=Not Found")).1 = 500 :=
  ⟨rfl, (ErrorHandler_response (.other "code=404, message=Not Found")).2.2.1
    (fun e he => by cases he)⟩

/-! ## C14 -/

theorem foldl_append_elems (es : List (Sigma fun _ : Int => Todo)) (acc : List Todo) :
    es.foldl (fun todos e => Slice.append todos e.2) (Slice.elems acc) =
      Slice.elems (acc ++ es.map Sigma.snd) := by
  induction es generalizing acc with
  | nil => simp
  | cons e es ih =>
    rw [List.foldl_cons]
    show es.foldl (fun todos e => Slice.append todos e.2) (Slice.elems (acc ++ [e.2])) = _
    rw [ih]
    simp

/-- Whatever the enumeration, `FindTodos` writes an array holding the records in
the order they were enumerated. -/
theorem FindTodosWire_eq (es : List (Sigma fun _ : Int => Todo)) :
    FindTodosWire es = (StatusOK, .array (es.map Sigma.snd)) := by
  simp [FindTodosWire, Slice.make0, foldl_append_elems, marshalTodos]

/-- The records written by `FindTodos` for an enumeration of the map are, up to
order, the records of the multiset-valued `FindTodos`. -/
theorem FindTodosWire_refines (h : Handler) (c : Context)
    (es : List (Sigma fun _ : Int => Todo)) (hes : Enumerates es h) :
    FindTodos h c =
      .ok ⟨(FindTodosWire es).1, .todos ((es.map Sigma.snd : List Todo) : Multiset Todo)⟩ := by
  unfold Enumerates at hes
  simp [FindTodos, FindTodosWire, ← hes]

/-- C14: when the store holds no items, `FindTodos` answers 200 with an empty
array: the enumeration of the map is empty, the slice is the empty non-nil one
made by `make`, and it is written as `[]`, not as `null`. -/
theorem FindTodos_empty_store (h : Handler) (c : Context)
    (es : List (Sigma fun _ : Int => Todo)) (hempty : h.todos = ∅) (hes : Enumerates es h) :
    FindTodos h c = .ok ⟨StatusOK, .todos 0⟩ ∧ StatusOK = 200 ∧
      FindTodosWire es = (200, .array []) ∧ (FindTodosWire es).2 ≠ .null := by
  have hnil : es = [] := by
    unfold Enumerates at hes
    rw [hempty] at hes
    exact (Multiset.coe_eq_zero es).mp hes
  subst hnil
  refine ⟨?_, rfl, rfl, by decide⟩
  simp [FindTodos, hempty]
  rfl

/-- A fresh handler, and the store after its only record was deleted. -/
theorem FindTodos_empty_store_witness :
    (NewHandler.todos = ∅ ∧ Enumerates [] NewHandler ∧
        FindTodos NewHandler pathEmpty = .ok ⟨StatusOK, .todos 0⟩ ∧ StatusOK = 200 ∧
        FindTodosWire [] = (200, .array []) ∧ (FindTodosWire []).2 ≠ .null) ∧
      (numCreated NewHandler [.create postBuyMilk, .delete pathOne] = 1 ∧
        createdThenDeleted.todos = ∅ ∧ Enumerates [] createdThenDeleted ∧
        FindTodos createdThenDeleted pathEmpty = .ok ⟨StatusOK, .todos 0⟩ ∧ StatusOK = 200 ∧
        FindTodosWire [] = (200, .array []) ∧ (FindTodosWire []).2 ≠ .null) :=
  ⟨⟨by decide, by decide, FindTodos_empty_store NewHandler pathEmpty [] (by decide) (by decide)⟩,
    ⟨by decide, by decide, by decide,
      FindTodos_empty_store createdThenDeleted pathEmpty [] (by decide) (by decide)⟩⟩

/-! ## C15 -/

theorem UpdateTodo_lookup_ne (h : Handler) (c : Context) (j : Int)
    (hj : getTodoID c ≠ .ok j) :
    (UpdateTodo h c).1.todos.lookup j = h.todos.lookup j := by
  unfold UpdateTodo
  split
  · rfl
  · rename_i id hid
    split
    · rfl
    · split
      · rfl
      · have hne : j ≠ id := by
          rintro rfl
          exact hj hid
        exact Finmap.lookup_insert_of_ne _ hne

theorem DeleteTodo_lookup_ne (h : Handler) (c : Context) (j : Int)
    (hj : getTodoID c ≠ .ok j) :
    (DeleteTodo h c).1.todos.lookup j = h.todos.lookup j := by
  unfold DeleteTodo
  split
  · rfl
  · rename_i id hid
    have hne : j ≠ id := by
      rintro rfl
      exact hj hid
    exact Finmap.lookup_erase_ne hne

/-- C15: each handler touches at most the entry it names. In every state,
`UpdateTodo` and `DeleteTodo` on path id `i` leave `lastID` and the record under
every other id as they were. A successful `CreateTodo` leaves the record under
every id other than `lastID + 1` as it was and makes the keys the old keys plus
`lastID + 1`; when the keys of the state lie in `1 .. lastID`, as in every
reachable state, `lastID + 1` is a new key, so one record is added and every
record stored before is left as it was. `GetTodo` and `FindTodos` return the
state as it was. -/
theorem frame_effects (h : Handler) (c : Context) :
    (∀ i j : Int, getTodoID c = .ok i → j ≠ i →
        (UpdateTodo h c).1.todos.lookup j = h.todos.lookup j ∧
        (DeleteTodo h c).1.todos.lookup j = h.todos.lookup j) ∧
      (UpdateTodo h c).1.lastID = h.lastID ∧ (DeleteTodo h c).1.lastID = h.lastID ∧
      (∀ t : Todo, (CreateTodo h c).2 = .ok ⟨StatusCreated, .todo t⟩ →
        (∀ j : Int, j ≠ h.lastID + 1 →
          (CreateTodo h c).1.todos.lookup j = h.todos.lookup j) ∧
        (CreateTodo h c).1.todos.keys = insert (h.lastID + 1) h.todos.keys ∧
        (KeysInRange h →
          h.lastID + 1 ∉ h.todos ∧
          (CreateTodo h c).1.todos.keys.card = h.todos.keys.card + 1 ∧
          ∀ j : Int, j ∈ h.todos → (CreateTodo h c).1.todos.lookup j = h.todos.lookup j)) ∧
      (serve h (.get c)).1 = h ∧ (serve h (.find c)).1 = h := by
  refine ⟨?_, UpdateTodo_lastID h c, DeleteTodo_lastID h c, ?_, rfl, rfl⟩
  · intro i j hid hne
    have hj : getTodoID c ≠ .ok j := by
      rw [hid]
      intro heq
      exact hne (Except.ok.inj heq).symm
    exact ⟨UpdateTodo_lookup_ne h c j hj, DeleteTodo_lookup_ne h c j hj⟩
  · intro t hc
    rcases CreateTodo_cases h c with he | ⟨t0, -, -, he⟩
    · rw [he] at hc
      simp at hc
    · have hother : ∀ j : Int, j ≠ h.lastID + 1 →
          (CreateTodo h c).1.todos.lookup j = h.todos.lookup j := by
        intro j hj
        rw [he]
        exact Finmap.lookup_insert_of_ne _ hj
      refine ⟨hother, ?_, ?_⟩
      · rw [he]
        exact keys_insert _ _ _
      · intro hk
        have hfresh : h.lastID + 1 ∉ h.todos := by
          intro hmem
          have := (keysInRange_iff h).mp hk _ hmem
          omega
        refine ⟨hfresh, ?_, ?_⟩
        · rw [he]
          simp only
          rw [keys_insert, Finset.card_insert_of_not_mem (fun hm => hfresh (Finmap.mem_keys.mp hm))]
        · intro j hj
          apply hother
          rintro rfl
          exact hfresh hj

/-- The store that holds record 1: an update and a deletion of id 1 leave id 5
alone, and a creation adds key 2 and leaves record 1 as it was. -/
theorem frame_effects_witness :
    getTodoID putOneWithID = .ok 1 ∧ KeysInRange oneTodo ∧
      (CreateTodo oneTodo postBuyMilk).2 = .ok ⟨StatusCreated, .todo ⟨2, "buy milk", false⟩⟩ ∧
      (UpdateTodo oneTodo putOneWithID).1.todos.lookup 5 = oneTodo.todos.lookup 5 ∧
      (DeleteTodo oneTodo putOneWithID).1.todos.lookup 5 = oneTodo.todos.lookup 5 ∧
      (CreateTodo oneTodo postBuyMilk).1.todos.keys.card = oneTodo.todos.keys.card + 1 ∧
      (CreateTodo oneTodo postBuyMilk).1.todos.lookup 1 = oneTodo.todos.lookup 1 :=
  ⟨by decide, by decide, by decide,
    ((frame_effects oneTodo putOneWithID).1 1 5 (by decide) (by decide)).1,
    ((frame_effects oneTodo putOneWithID).1 1 5 (by decide) (by decide)).2,
    (((frame_effects oneTodo postBuyMilk).2.2.2.1 ⟨2, "buy milk", false⟩ (by decide)).2.2
      (by decide)).2.1,
    (((frame_effects oneTodo postBuyMilk).2.2.2.1 ⟨2, "buy milk", false⟩ (by decide)).2.2
      (by decide)).2.2 1 (by decide)⟩

/-! ## The mutex, for C13 -/

theorem disciplined_iff (s : Shared) :
    s.Disciplined ↔
      ∀ (t : Nat) (ops : List Op), s.pending[t]? = some ops →
        keepsLock (decide (s.holder = some t)) ops = true := by
  unfold Shared.Disciplined
  constructor
  · intro hs t ops hops
    have hlt : t < s.pending.length := (List.getElem?_eq_some_iff.mp hops).1
    have := hs t hlt
    rw [List.getD_eq_getElem?_getD, hops] at this
    exact this
  · intro hs t hlt
    apply hs t
    rw [List.getD_eq_getElem?_getD, List.getElem?_eq_getElem hlt]
    rfl

/-- The entry of request `u` after request `t` replaced its steps by `rest`. -/
theorem pending_set (l : List (List Op)) (t u : Nat) (rest ops : List Op)
    (hops : (l.set t rest)[u]? = some ops) :
    (u = t ∧ ops = rest) ∨ (u ≠ t ∧ l[u]? = some ops) := by
  by_cases hut : u = t
  · subst hut
    left
    have hlt : u < l.length := by
      have := (List.getElem?_eq_some_iff.mp hops).1
      simpa using this
    rw [List.getElem?_set_self hlt] at hops
    exact ⟨rfl, (Option.some.inj hops).symm⟩
  · right
    rw [List.getElem?_set_ne (Ne.symm hut)] at hops
    exact ⟨hut, hops⟩

/-- A step of a request keeps all requests to the mutex, if they kept to it. -/
theorem Disciplined_step (s s2 : Shared) (t : Nat) (hs : s.Disciplined)
    (hstep : s.step t = some s2) : s2.Disciplined := by
  rw [disciplined_iff] at hs ⊢
  unfold Shared.step at hstep
  split at hstep
  · rename_i rest hpt
    have ht := hs t _ hpt
    split at hstep
    · rename_i hnone
      cases hstep
      intro u ops hops
      rcases pending_set _ _ _ _ _ hops with ⟨rfl, rfl⟩ | ⟨hut, hu⟩
      · simpa [keepsLock, hnone] using ht
      · have := hs u ops hu
        have hne : ¬ t = u := fun h => hut h.symm
        simpa [hnone, hne] using this
    · cases hstep
  · rename_i rest hpt
    have ht := hs t _ hpt
    cases hstep
    simp only [keepsLock, Bool.and_eq_true, decide_eq_true_eq] at ht
    intro u ops hops
    rcases pending_set _ _ _ _ _ hops with ⟨rfl, rfl⟩ | ⟨hut, hu⟩
    · simpa using ht.2
    · have := hs u ops hu
      have hne : ¬ t = u := fun h => hut h.symm
      simpa [ht.1, hne] using this
  · rename_i rest hpt
    have ht := hs t _ hpt
    cases hstep
    simp only [keepsLock, Bool.and_eq_true, decide_eq_true_eq] at ht
    intro u ops hops
    rcases pending_set _ _ _ _ _ hops with ⟨rfl, rfl⟩ | ⟨hut, hu⟩
    · simpa [ht.1] using ht.2
    · exact hs u ops hu
  · rename_i rest hpt
    have ht := hs t _ hpt
    cases hstep
    simp only [keepsLock, Bool.and_eq_true, decide_eq_true_eq] at ht
    intro u ops hops
    rcases pending_set _ _ _ _ _ hops with ⟨rfl, rfl⟩ | ⟨hut, hu⟩
    · simpa [ht.1] using ht.2
    · exact hs u ops hu
  · cases hstep

theorem Disciplined_exec (ts : List Nat) (s s2 : Shared) (hs : s.Disciplined)
    (hexec : s.exec ts = some s2) : s2.Disciplined := by
  induction ts generalizing s with
  | nil =>
    simp only [Shared.exec, Option.some.injEq] at hexec
    exact hexec ▸ hs
  | cons t ts ih =>
    simp only [Shared.exec] at hexec
    cases hstep : s.step t with
    | none => rw [hstep] at hexec; cases hexec
    | some s1 =>
      rw [hstep] at hexec
      exact ih s1 (Disciplined_step s s1 t hs hstep) hexec

/-- Requests that keep to the mutex never read during the write of another. -/
theorem Disciplined_no_readsDuringWrite (s : Shared) (hs : s.Disciplined) (t : Nat) :
    s.readsDuringWrite t = false := by
  rw [disciplined_iff] at hs
  unfold Shared.readsDuringWrite
  split
  · rename_i rest u hpt hu
    have := hs t _ hpt
    simp only [keepsLock, Bool.and_eq_true, decide_eq_true_eq] at this
    have hut : u = t := by
      rw [hu] at this
      exact Option.some.inj this.1
    simp [hut]
  · rfl

/-- Steps wrapped by `withLockContext` that neither take nor release the mutex
themselves hold it for their full duration. -/
theorem locksThroughout_withLockContext (fn : List Op)
    (hfn : ∀ op ∈ fn, op = Op.read ∨ op = Op.write) :
    locksThroughout (withLockContext fn) = true := by
  have hkeep : ∀ l : List Op, (∀ op ∈ l, op = Op.read ∨ op = Op.write) →
      keepsLock true (l ++ [Op.unlock]) = true := by
    intro l
    induction l with
    | nil => intro _; rfl
    | cons a l ih =>
      intro hl
      have hrest := ih (fun op hop => hl op (List.mem_cons_of_mem _ hop))
      rcases hl a (List.mem_cons_self _ _) with rfl | rfl <;>
        simpa [keepsLock] using hrest
  have hk := hkeep fn hfn
  simp [locksThroughout, withLockContext, keepsLock, hk, List.getLast?_cons,
    List.getLast?_append]

/-- Requests that all hold the mutex for their full duration keep to it when
none of them has started. -/
theorem Disciplined_of_locksThroughout (progs : List (List Op))
    (hp : ∀ ops ∈ progs, locksThroughout ops = true) :
    (⟨none, progs⟩ : Shared).Disciplined := by
  rw [disciplined_iff]
  intro t ops hops
  have hmem : ops ∈ progs := by
    obtain ⟨hlt, hget⟩ := List.getElem?_eq_some_iff.mp hops
    exact hget ▸ List.getElem_mem hlt
  have := hp ops hmem
  simp only [locksThroughout, Bool.and_eq_true] at this
  simpa using this.2

/-! ## C13 -/

/-- C13 (the code departs from it): `CreateTodo`, `UpdateTodo` and `DeleteTodo`
hold the mutex for their full duration, for every state and request, and
requests that all do so never read during the write of another, whatever the
schedule. `FindTodos` and
`GetTodo` do not take the mutex at all. With a `POST /todos` and a `GET /todos`
in flight, after the `POST` has taken the mutex and incremented `lastID`, with
its write of the map still to come, the `GET` is free to make its read of the
map; and likewise a `GET /todos/1`. -/
theorem FindTodos_GetTodo_skip_mutex :
    (∀ (h : Handler) (c : Context),
        locksThroughout (CreateTodoOps c) = true ∧
        locksThroughout (UpdateTodoOps h c) = true ∧
        locksThroughout (DeleteTodoOps c) = true) ∧
      (∀ (progs : List (List Op)) (ts : List Nat) (s : Shared) (t : Nat),
        (∀ ops ∈ progs, locksThroughout ops = true) →
        Shared.exec ⟨none, progs⟩ ts = some s → s.readsDuringWrite t = false) ∧
      locksThroughout FindTodosOps = false ∧
      locksThroughout (GetTodoOps pathOne) = false ∧
      (∃ s : Shared, createAndFind.exec [0, 0] = some s ∧
        s.holder = some 0 ∧ s.readsDuringWrite 1 = true ∧ (s.step 1).isSome = true) ∧
      (∃ s : Shared, createAndGet.exec [0, 0] = some s ∧
        s.holder = some 0 ∧ s.readsDuringWrite 1 = true ∧ (s.step 1).isSome = true) := by
  refine ⟨?_, ?_, by decide, by decide, ?_, ?_⟩
  · intro h c
    refine ⟨?_, ?_, ?_⟩
    · apply locksThroughout_withLockContext
      intro op hop
      split at hop
      · cases hop
      · split at hop
        · cases hop
        · simp only [List.mem_cons, List.mem_singleton, List.not_mem_nil, or_false] at hop
          rcases hop with rfl | rfl | rfl <;> simp
    · apply locksThroughout_withLockContext
      intro op hop
      split at hop
      · cases hop
      · rcases List.mem_cons.mp hop with rfl | hop
        · exact Or.inl rfl
        · split at hop
          · cases hop
          · split at hop
            · cases hop
            · exact Or.inr (List.mem_singleton.mp hop)
    · apply locksThroughout_withLockContext
      intro op hop
      split at hop
      · cases hop
      · exact Or.inr (List.mem_singleton.mp hop)
  · intro progs ts s t hp hexec
    exact Disciplined_no_readsDuringWrite s
      (Disciplined_exec ts _ s (Disciplined_of_locksThroughout progs hp) hexec) t
  · exact ⟨⟨some 0, [[.read, .write, .unlock], [.read]]⟩, by decide, by decide, by decide,
      by decide⟩
  · exact ⟨⟨some 0, [[.read, .write, .unlock], [.read]]⟩, by decide, by decide, by decide,
      by decide⟩

end TodoGo
